import Mathlib

/-!
Shallow embedding of `src/io.ts` (commaai/fastboot.js): zip local-file-header
parsing, the zero-copy stored-entry reader, the `BlobEntryReader` facade, and
the timeout / timed-progress / error-unwrapping utilities.

A `Blob` is modelled as a `List Nat` of its byte values.  JavaScript integer
indices are modelled as `Int` (all the indices involved are integral in every
claim under consideration).
-/

namespace Fastboot

/-- `Blob.prototype.slice(start, end)` semantics: each bound is clamped to
`[0, size]`, a negative bound counting from the end; the result is the bytes
in `[relStart, relEnd)` (empty when `relEnd ≤ relStart`). -/
def blobSlice (blob : List Nat) (s e : Int) : List Nat :=
  let n : Int := (blob.length : Int)
  let relStart : Int := if s < 0 then max (s + n) 0 else min s n
  let relEnd : Int := if e < 0 then max (e + n) 0 else min e n
  (blob.drop relStart.toNat).take (relEnd - relStart).toNat

/-- `parseIndex` from `src/io.ts`: a negative index is interpreted relative to
the end (floored at 0), a non-negative index is capped at `size`. -/
def parseIndex (index size : Int) : Int :=
  if index < 0 then max (index + size) 0 else min index size

/-- `EntryMetadata` from `src/common.ts` (all fields are unsigned values
decoded from the header, hence `Nat`). -/
structure EntryMetadata where
  offset : Nat
  compressionMethod : Nat
  compressedSize : Nat
  uncompressedSize : Nat
  headerSize : Nat
deriving DecidableEq, Repr

/-- `BlobEntryReaderImpl` state: the container blob, the absolute start of the
entry data (`entryMetadata.offset + entryMetadata.headerSize`) and the logical
size (`entryMetadata.compressedSize`). -/
structure BlobEntryReaderImpl where
  blob : List Nat
  offset : Nat
  size : Nat
deriving DecidableEq, Repr

/-- The `BlobEntryReaderImpl` constructor. -/
def BlobEntryReaderImpl.ofMetadata (blob : List Nat) (md : EntryMetadata) :
    BlobEntryReaderImpl :=
  { blob := blob, offset := md.offset + md.headerSize, size := md.compressedSize }

/-- `BlobEntryReaderImpl.readUint8Array`: clamp `index` and `index + length`
independently, translate by the data-window start, and slice the container. -/
def BlobEntryReaderImpl.readUint8Array (r : BlobEntryReaderImpl)
    (index length : Int) : List Nat :=
  let start := parseIndex index (r.size : Int) + (r.offset : Int)
  let stop := parseIndex (index + length) (r.size : Int) + (r.offset : Int)
  blobSlice r.blob start stop

/-- Byte lookup used by the `DataView` model (a real `DataView` access is
always in bounds when it succeeds, so the default is never observable). -/
def byteAt (l : List Nat) (i : Nat) : Nat := l.getD i 0

/-- `DataView.prototype.getUint16(pos, true)`: little-endian 16-bit read,
failing (`none`) when the view is too short, as the real call throws. -/
def getUint16LE (bytes : List Nat) (pos : Nat) : Option Nat :=
  if pos + 2 ≤ bytes.length then
    some (byteAt bytes pos + 256 * byteAt bytes (pos + 1))
  else none

/-- `DataView.prototype.getUint32(pos, true)`: little-endian 32-bit read,
failing (`none`) when the view is too short. -/
def getUint32LE (bytes : List Nat) (pos : Nat) : Option Nat :=
  if pos + 4 ≤ bytes.length then
    some (byteAt bytes pos + 256 * byteAt bytes (pos + 1)
      + 65536 * byteAt bytes (pos + 2) + 16777216 * byteAt bytes (pos + 3))
  else none

/-- The field extraction of `getEntryMetadata` on the sliced 30-byte header
(`ZIP_ENTRY_HEADER_BEGIN_LENGTH = 30`). -/
def decodeLocalHeader (offset : Nat) (hdr : List Nat) : Option EntryMetadata := do
  let compressionMethod ← getUint16LE hdr 8
  let compressedSize ← getUint32LE hdr 18
  let uncompressedSize ← getUint32LE hdr 22
  let fileNameLength ← getUint16LE hdr 26
  let extraFieldLength ← getUint16LE hdr 28
  pure { offset := offset, compressionMethod := compressionMethod,
         compressedSize := compressedSize, uncompressedSize := uncompressedSize,
         headerSize := 30 + fileNameLength + extraFieldLength }

/-- `getEntryMetadata` from `src/common.ts`: slice the 30 header bytes at
`entry.offset` out of the container and decode the little-endian fields. -/
def getEntryMetadata (blob : List Nat) (offset : Nat) : Option EntryMetadata :=
  decodeLocalHeader offset (blobSlice blob (offset : Int) ((offset : Int) + 30))

/-- JavaScript error values as far as this module inspects them: a
`ProgressEvent` has a `type` string and a possibly-null `target` whose
`error` field is again an error value; anything else is opaque. -/
inductive JSError where
  | progressEvent (evType : String) (target : Option JSError)
  | rangeError
  | typeError
  | plain (id : Nat)

/-- The catch-clause of `zipGetData`: a `ProgressEvent` of type `"error"`
with a non-null `target` is replaced by `target.error`; every other caught
value is re-thrown unchanged. -/
def unwrapZipError : JSError → JSError
  | .progressEvent "error" (some inner) => inner
  | e => e

/-- `zipGetData` from `src/common.ts`, over the outcome of the external
`entry.getData` call: a success is returned unchanged, a failure is
re-thrown after unwrapping. -/
def zipGetData {α : Type} (result : Except JSError α) : Except JSError α :=
  match result with
  | .ok v => .ok v
  | .error e => .error (unwrapZipError e)

/-- The external archive library's entry descriptor, as used here: the header
offset, plus the outcome its `getData` decode call would deliver (decoded
bytes, or a thrown error). -/
structure Entry where
  offset : Nat
  getDataResult : Except JSError (List Nat)

/-- Modelled from the spec: the external archive library's in-memory reader
(`BlobReader`) over the decoded entry blob — `DecodedEntryRange` — whose
`readUint8Array(index, length)` slices `[index, index + length)` out of the
decoded blob and whose size is the blob's length. -/
def blobReaderRead (buf : List Nat) (index length : Int) : List Nat :=
  blobSlice buf index (index + length)

/-- The inner reader chosen by `BlobEntryReader.init`: either the zero-copy
`BlobEntryReaderImpl` over the container, or a `BlobReader` over the decoded
entry blob. -/
inductive InnerReader where
  | stored (r : BlobEntryReaderImpl)
  | decoded (buf : List Nat)
deriving DecidableEq, Repr

def InnerReader.size : InnerReader → Nat
  | .stored r => r.size
  | .decoded buf => buf.length

def InnerReader.readUint8Array : InnerReader → Int → Int → List Nat
  | .stored r, index, length => r.readUint8Array index length
  | .decoded buf, index, length => blobReaderRead buf index length

/-- `BlobEntryReader` state: constructor arguments plus the mutable `reader`
field (unset, i.e. `none`, until `init` completes) and the `size` field
(`Reader.size`, unset before `init`; its pre-`init` value is never read by
any modelled operation). -/
structure BlobEntryReader where
  blob : List Nat
  entry : Entry
  reader : Option InnerReader
  size : Nat

/-- The `BlobEntryReader` constructor: stores the arguments; `reader` is
still unset. -/
def BlobEntryReader.construct (blob : List Nat) (entry : Entry) :
    BlobEntryReader :=
  { blob := blob, entry := entry, reader := none, size := 0 }

/-- `BlobEntryReader.init`: parse the entry metadata; for a compressed entry
decode once via `zipGetData` into a blob wrapped by a `BlobReader`, for a
stored entry build the zero-copy `BlobEntryReaderImpl`; then publish the
chosen reader's size.  A failed metadata parse surfaces the `DataView` range
error; a failed decode surfaces the (unwrapped) decode error. -/
def BlobEntryReader.init (r : BlobEntryReader) : Except JSError BlobEntryReader :=
  match getEntryMetadata r.blob r.entry.offset with
  | none => .error .rangeError
  | some md =>
    if md.compressionMethod ≠ 0 then
      match zipGetData r.entry.getDataResult with
      | .error e => .error e
      | .ok entryBlob =>
        let rd := InnerReader.decoded entryBlob
        .ok { r with reader := some rd, size := rd.size }
    else
      let rd := InnerReader.stored (BlobEntryReaderImpl.ofMetadata r.blob md)
      .ok { r with reader := some rd, size := rd.size }

/-- `BlobEntryReader.readUint8Array`: forwards to `this.reader!`; when the
reader is still unset this is a property access on `undefined`, which throws
a `TypeError`. -/
def BlobEntryReader.readUint8Array (r : BlobEntryReader) (index length : Int) :
    Except JSError (List Nat) :=
  match r.reader with
  | none => .error .typeError
  | some rd => .ok (rd.readUint8Array index length)

/-! ## `runWithTimeout`

The race between the wrapped promise and the timer is modelled as the two
handler bodies from `src/common.ts` acting on an explicit state, executed in
one of the two possible single-threaded orders.  The promise's `.then` /
`.catch` handler and its `.finally` handler run back to back (microtasks
drain before the timer macrotask can run), so `promiseSettle` performs both.
-/

/-- How the wrapped promise eventually settles. -/
inductive Settled (α ε : Type) where
  | ok (v : α)
  | err (e : ε)

/-- `TimeoutError` from `src/common.ts` (name `"TimeoutError"`, message
`"Timeout of <timeout> ms exceeded"`); only the `timeout` field is modelled. -/
structure TimeoutError where
  timeout : Nat
deriving DecidableEq, Repr

/-- One call to the outer promise's `resolve` or `reject`. -/
inductive Report (α ε : Type) where
  | value (v : α)
  | failure (e : ε)
  | timeoutFailure (err : TimeoutError)

/-- The outcome a settled promise would report through the passthrough
handlers. -/
def settledReport {α ε : Type} : Settled α ε → Report α ε
  | .ok v => .value v
  | .err e => .failure e

/-- State of one `runWithTimeout` race: the `timedOut` sentinel, whether
`clearTimeout(tid)` has run, and the calls made to `resolve` / `reject` in
order. -/
structure RaceState (α ε : Type) where
  timedOut : Bool
  timerCancelled : Bool
  reports : List (Report α ε)

def raceStart {α ε : Type} : RaceState α ε :=
  { timedOut := false, timerCancelled := false, reports := [] }

/-- The `setTimeout` callback: if the timer was not cancelled before firing,
set the sentinel first, then `reject(new TimeoutError(timeout))`. -/
def timerFire {α ε : Type} (timeout : Nat) (s : RaceState α ε) : RaceState α ε :=
  if s.timerCancelled then s
  else { s with timedOut := true,
                reports := s.reports ++ [Report.timeoutFailure ⟨timeout⟩] }

/-- The promise's handler chain: `.then`/`.catch` report the outcome unless
`timedOut`, then `.finally` cancels the timer unless `timedOut`. -/
def promiseSettle {α ε : Type} (outcome : Settled α ε) (s : RaceState α ε) :
    RaceState α ε :=
  let s1 := if s.timedOut then s
            else { s with reports := s.reports ++ [settledReport outcome] }
  if s1.timedOut then s1 else { s1 with timerCancelled := true }

/-- The two possible single-threaded interleavings of the race. -/
inductive RaceOrder where
  | settleFirst
  | timerFirst
deriving DecidableEq, Repr

/-- `runWithTimeout` from `src/common.ts`: the final race state, given how
the wrapped promise settles and which of promise / timer runs first. -/
def runWithTimeout {α ε : Type} (outcome : Settled α ε) (timeout : Nat)
    (order : RaceOrder) : RaceState α ε :=
  match order with
  | .settleFirst => timerFire timeout (promiseSettle outcome raceStart)
  | .timerFirst => promiseSettle outcome (timerFire timeout raceStart)

/-! ## `runWithTimedProgress`

The progress loop samples the clock, reports `(now - startTime) / duration`,
awaits a frame, and repeats while `!stop && now < targetTime`.  The loop is
modelled over the finite trace of its iterations: each iteration contributes
the sampled `now` and the value the `stop` flag has when the while-condition
is evaluated after the frame wait.  Fractions are exact rationals.
-/

/-- The reports issued by the do-while progress loop, one `(now, stop)` pair
per iteration. -/
def progressLoop (startTime targetTime duration : Int) :
    List (Int × Bool) → List ℚ
  | [] => []
  | (now, stop) :: rest =>
    (((now - startTime : Int) : ℚ) / ((duration : Int) : ℚ)) ::
      (if stop = false ∧ now < targetTime then
        progressLoop startTime targetTime duration rest
      else [])

/-- `runWithTimedProgress` from `src/common.ts`: the full sequence of
fractions passed to `onProgress` — the initial `0.0`, the loop reports, and
the unconditional final `1.0` issued after both the progress loop and the
work promise have been awaited. -/
def runWithTimedProgress (startTime duration : Int)
    (samples : List (Int × Bool)) : List ℚ :=
  0 :: (progressLoop startTime (startTime + duration) duration samples ++ [1])

/-- Does a report carry a `TimeoutError`? -/
def isTimeoutReport {α ε : Type} : Report α ε → Bool
  | .timeoutFailure _ => true
  | _ => false

/-! ## Helper lemmas -/

theorem parseIndex_nonneg (index size : Int) (hs : 0 ≤ size) :
    0 ≤ parseIndex index size := by
  unfold parseIndex; split <;> omega

theorem parseIndex_le (index size : Int) (hs : 0 ≤ size) :
    parseIndex index size ≤ size := by
  unfold parseIndex; split <;> omega

theorem blobSlice_eq_nil_of_le (blob : List Nat) (s e : Int)
    (h0s : 0 ≤ s) (h0e : 0 ≤ e) (h : e ≤ s) : blobSlice blob s e = [] := by
  unfold blobSlice
  have hs' : ¬ s < 0 := by omega
  have he' : ¬ e < 0 := by omega
  simp only [hs', he', if_false]
  have : (min e (blob.length : Int) - min s (blob.length : Int)).toNat = 0 := by
    omega
  simp [this]

theorem blobSlice_eq_drop_take (blob : List Nat) (o k : Nat)
    (h : o + k ≤ blob.length) :
    blobSlice blob (o : Int) ((o : Int) + (k : Int)) = (blob.drop o).take k := by
  unfold blobSlice
  have h1 : ¬ ((o : Int) < 0) := by omega
  have h2 : ¬ ((o : Int) + (k : Int) < 0) := by omega
  simp only [h1, h2, if_false]
  have h3 : min (o : Int) ((blob.length : Nat) : Int) = (o : Int) := by omega
  have h4 : min ((o : Int) + (k : Int)) ((blob.length : Nat) : Int)
      = (o : Int) + (k : Int) := by omega
  rw [h3, h4]
  have h5 : ((o : Int) + (k : Int) - (o : Int)).toNat = k := by omega
  rw [h5]
  simp

/-- A stored-entry read whose clamped end bound is at most its clamped start
bound yields the empty byte array. -/
theorem readUint8Array_eq_nil (r : BlobEntryReaderImpl) (index length : Int)
    (h : parseIndex (index + length) (r.size : Int)
        ≤ parseIndex index (r.size : Int)) :
    r.readUint8Array index length = [] := by
  unfold BlobEntryReaderImpl.readUint8Array
  apply blobSlice_eq_nil_of_le
  · have := parseIndex_nonneg index (r.size : Int) (by omega)
    omega
  · have := parseIndex_nonneg (index + length) (r.size : Int) (by omega)
    omega
  · omega

theorem parseIndex_eq_size (index size : Int) (hs : 0 ≤ size)
    (h : size ≤ index) : parseIndex index size = size := by
  unfold parseIndex; split <;> omega

/-! ## Claim theorems -/

/-- C1: a stored-entry read via `BlobEntryReaderImpl` returns exactly the
container bytes in `[dataStart + clamp(index), dataStart + clamp(index +
length))` where `dataStart = offset + headerSize` — byte-for-byte a direct
slice of the container blob — and in particular `read(0, S)` on an entry of
logical size `S` lying inside the container returns the raw container bytes
at `[dataStart, dataStart + S)`. -/
theorem stored_read_eq_container_slice (blob : List Nat) (md : EntryMetadata)
    (index length : Int) :
    (BlobEntryReaderImpl.ofMetadata blob md).readUint8Array index length
      = blobSlice blob
          (((md.offset + md.headerSize : Nat) : Int)
            + parseIndex index ((md.compressedSize : Nat) : Int))
          (((md.offset + md.headerSize : Nat) : Int)
            + parseIndex (index + length) ((md.compressedSize : Nat) : Int))
    ∧ (md.offset + md.headerSize + md.compressedSize ≤ blob.length →
        (BlobEntryReaderImpl.ofMetadata blob md).readUint8Array 0
            ((md.compressedSize : Nat) : Int)
          = (blob.drop (md.offset + md.headerSize)).take md.compressedSize) := by
  constructor
  · unfold BlobEntryReaderImpl.readUint8Array BlobEntryReaderImpl.ofMetadata
    simp [Int.add_comm]
  · intro h
    have h0 : parseIndex 0 ((md.compressedSize : Nat) : Int) = 0 := by
      unfold parseIndex; split <;> omega
    have hS : parseIndex ((md.compressedSize : Nat) : Int)
        ((md.compressedSize : Nat) : Int) = ((md.compressedSize : Nat) : Int) := by
      unfold parseIndex; split <;> omega
    unfold BlobEntryReaderImpl.readUint8Array BlobEntryReaderImpl.ofMetadata
    simp only [h0, Int.zero_add, hS]
    rw [Int.add_comm]
    exact blobSlice_eq_drop_take blob (md.offset + md.headerSize)
      md.compressedSize h

/-- C1 witness: a 34-byte container whose stored entry of size 4 starts at
byte 30; `read(0, 4)` returns exactly those 4 container bytes. -/
theorem stored_read_eq_container_slice_witness :
    (BlobEntryReaderImpl.ofMetadata
        (List.replicate 18 0 ++ [4, 0, 0, 0, 4, 0, 0, 0, 0, 0, 0, 0, 9, 8, 7, 6]) ⟨0, 0, 4, 4, 30⟩).readUint8Array 0 4
      = ((List.replicate 18 0 ++ [4, 0, 0, 0, 4, 0, 0, 0, 0, 0, 0, 0, 9, 8, 7, 6]).drop 30).take 4 :=
  (stored_read_eq_container_slice (List.replicate 18 0 ++ [4, 0, 0, 0, 4, 0, 0, 0, 0, 0, 0, 0, 9, 8, 7, 6])
    ⟨0, 0, 4, 4, 30⟩ 0 4).2 (by decide)

/-- C3 counterexample: on a stored entry of size 4 (container bytes
`[1, 2, 3, 4]` at offset 30), `read(-1, 1)` returns the empty array, not the
last byte `4`: the end bound `-1 + 1 = 0` is clamped to `0`, which lies
before the clamped start bound `3`. -/
theorem read_neg_one_one_counterexample :
    (⟨List.replicate 30 0 ++ [1, 2, 3, 4], 30, 4⟩ :
        BlobEntryReaderImpl).readUint8Array (-1) 1 = ([] : List Nat)
    ∧ (List.replicate 30 (0 : Nat) ++ [1, 2, 3, 4]).getLast? = some 4 := by
  constructor
  · decide
  · decide

/-- C3 (amended): `parseIndex` maps a negative index to
`max (index + size) 0` and a non-negative index to `min index size`;
consequently `read(-1, 1)` returns an empty result (the end bound `-1 + 1 = 0`
clamps to `0`, at or before the clamped start), `read(S, 10)` returns an
empty result, and `read(-(S+5), S)` clamps its start bound to `0`. -/
theorem parseIndex_clamp_spec (index size : Int) (_hs : 0 ≤ size)
    (r : BlobEntryReaderImpl) :
    (index < 0 → parseIndex index size = max (index + size) 0)
    ∧ (0 ≤ index → parseIndex index size = min index size)
    ∧ r.readUint8Array (-1) 1 = []
    ∧ r.readUint8Array ((r.size : Nat) : Int) 10 = []
    ∧ parseIndex (-(((r.size : Nat) : Int) + 5)) ((r.size : Nat) : Int) = 0 := by
  refine ⟨?_, ?_, ?_, ?_, ?_⟩
  · intro h; unfold parseIndex; split <;> omega
  · intro h; unfold parseIndex; split <;> omega
  · apply readUint8Array_eq_nil
    have h1 : parseIndex (-1 + 1) ((r.size : Nat) : Int) = 0 := by
      unfold parseIndex; split <;> omega
    have h2 := parseIndex_nonneg (-1) ((r.size : Nat) : Int) (by omega)
    omega
  · apply readUint8Array_eq_nil
    have h1 := parseIndex_eq_size ((r.size : Nat) : Int) ((r.size : Nat) : Int)
      (by omega) (by omega)
    have h2 := parseIndex_le (((r.size : Nat) : Int) + 10) ((r.size : Nat) : Int)
      (by omega)
    omega
  · unfold parseIndex; split <;> omega

/-- C3 witness: the clamping rule and the read consequences at concrete
inputs (`index = -3` and `3`, `size = 7`; a stored entry of size 4 whose data
`[1, 2, 3, 4]` starts at container byte 30). -/
theorem parseIndex_clamp_spec_witness :
    parseIndex (-3) 7 = max (-3 + 7) 0
    ∧ parseIndex 3 7 = min 3 7
    ∧ (⟨List.replicate 30 0 ++ [1, 2, 3, 4], 30, 4⟩ :
        BlobEntryReaderImpl).readUint8Array (-1) 1 = []
    ∧ (⟨List.replicate 30 0 ++ [1, 2, 3, 4], 30, 4⟩ :
        BlobEntryReaderImpl).readUint8Array 4 10 = []
    ∧ parseIndex (-(4 + 5)) 4 = 0 :=
  ⟨(parseIndex_clamp_spec (-3) 7 (by decide)
      ⟨List.replicate 30 0 ++ [1, 2, 3, 4], 30, 4⟩).1 (by decide),
   (parseIndex_clamp_spec 3 7 (by decide)
      ⟨List.replicate 30 0 ++ [1, 2, 3, 4], 30, 4⟩).2.1 (by decide),
   (parseIndex_clamp_spec 3 7 (by decide)
      ⟨List.replicate 30 0 ++ [1, 2, 3, 4], 30, 4⟩).2.2.1,
   (parseIndex_clamp_spec 3 7 (by decide)
      ⟨List.replicate 30 0 ++ [1, 2, 3, 4], 30, 4⟩).2.2.2.1,
   (parseIndex_clamp_spec 3 7 (by decide)
      ⟨List.replicate 30 0 ++ [1, 2, 3, 4], 30, 4⟩).2.2.2.2⟩

/-- C4: every stored-entry read only touches container bytes inside the
entry's declared data window: the absolute range actually sliced is
`[dataStart + clamp(index), dataStart + clamp(index + length))`, and both
bounds lie in `[dataStart, dataStart + size]`, for every (also negative or
oversized) request. -/
theorem stored_read_window_safe (r : BlobEntryReaderImpl) (index length : Int) :
    r.readUint8Array index length
      = blobSlice r.blob
          (parseIndex index ((r.size : Nat) : Int) + ((r.offset : Nat) : Int))
          (parseIndex (index + length) ((r.size : Nat) : Int)
            + ((r.offset : Nat) : Int))
    ∧ ((r.offset : Nat) : Int)
        ≤ parseIndex index ((r.size : Nat) : Int) + ((r.offset : Nat) : Int)
    ∧ parseIndex index ((r.size : Nat) : Int) + ((r.offset : Nat) : Int)
        ≤ ((r.offset : Nat) : Int) + ((r.size : Nat) : Int)
    ∧ ((r.offset : Nat) : Int)
        ≤ parseIndex (index + length) ((r.size : Nat) : Int)
          + ((r.offset : Nat) : Int)
    ∧ parseIndex (index + length) ((r.size : Nat) : Int)
        + ((r.offset : Nat) : Int)
        ≤ ((r.offset : Nat) : Int) + ((r.size : Nat) : Int) := by
  have h1 := parseIndex_nonneg index ((r.size : Nat) : Int) (by omega)
  have h2 := parseIndex_le index ((r.size : Nat) : Int) (by omega)
  have h3 := parseIndex_nonneg (index + length) ((r.size : Nat) : Int) (by omega)
  have h4 := parseIndex_le (index + length) ((r.size : Nat) : Int) (by omega)
  exact ⟨rfl, by omega, by omega, by omega, by omega⟩

/-- C9: calling `readUint8Array` on a freshly constructed `BlobEntryReader`
whose `init` has not completed fails fast with the null-reference-style
`TypeError` (the inner reader is still unset), rather than returning data. -/
theorem read_before_init_fails (blob : List Nat) (entry : Entry)
    (index length : Int) :
    (BlobEntryReader.construct blob entry).readUint8Array index length
      = Except.error JSError.typeError := rfl

/-- C10 counterexample: a negative length does not always yield an empty
result: on a stored entry of size 10 (data `[0, …, 9]` at offset 30),
`read(2, -3)` clamps the end bound `2 + (-3) = -1` to `9`, past the start
bound `2`, and returns seven bytes. -/
theorem stored_read_negative_length_counterexample :
    (⟨List.replicate 30 0 ++ [0, 1, 2, 3, 4, 5, 6, 7, 8, 9], 30, 10⟩ :
        BlobEntryReaderImpl).readUint8Array 2 (-3) = [2, 3, 4, 5, 6, 7, 8] := by
  decide

/-- C10 (amended): a stored-entry read returns the empty byte array (and
never an error) whenever the clamped end bound is at most the clamped start
bound — in particular for `length = 0` and whenever the start index is at or
beyond the entry size; a negative length is tolerated, not rejected, but may
produce non-empty output when the clamped end lands past the clamped start. -/
theorem stored_read_empty_spec (r : BlobEntryReaderImpl) (index length : Int) :
    (parseIndex (index + length) ((r.size : Nat) : Int)
        ≤ parseIndex index ((r.size : Nat) : Int) →
      r.readUint8Array index length = [])
    ∧ (length = 0 → r.readUint8Array index length = [])
    ∧ (((r.size : Nat) : Int) ≤ index → r.readUint8Array index length = []) := by
  refine ⟨fun h => readUint8Array_eq_nil r index length h, ?_, ?_⟩
  · intro h
    subst h
    exact readUint8Array_eq_nil r index 0 (by rw [Int.add_zero])
  · intro h
    apply readUint8Array_eq_nil
    have h1 := parseIndex_eq_size index ((r.size : Nat) : Int) (by omega) h
    have h2 := parseIndex_le (index + length) ((r.size : Nat) : Int) (by omega)
    omega

/-- C10 witness: the three empty-read cases at concrete inputs on a stored
entry of size 10. -/
theorem stored_read_empty_spec_witness :
    (⟨List.replicate 30 0 ++ [0, 1, 2, 3, 4, 5, 6, 7, 8, 9], 30, 10⟩ :
        BlobEntryReaderImpl).readUint8Array 5 (-2) = []
    ∧ (⟨List.replicate 30 0 ++ [0, 1, 2, 3, 4, 5, 6, 7, 8, 9], 30, 10⟩ :
        BlobEntryReaderImpl).readUint8Array 4 0 = []
    ∧ (⟨List.replicate 30 0 ++ [0, 1, 2, 3, 4, 5, 6, 7, 8, 9], 30, 10⟩ :
        BlobEntryReaderImpl).readUint8Array 12 3 = [] :=
  ⟨(stored_read_empty_spec
      ⟨List.replicate 30 0 ++ [0, 1, 2, 3, 4, 5, 6, 7, 8, 9], 30, 10⟩
      5 (-2)).1 (by decide),
   (stored_read_empty_spec
      ⟨List.replicate 30 0 ++ [0, 1, 2, 3, 4, 5, 6, 7, 8, 9], 30, 10⟩
      4 0).2.1 rfl,
   (stored_read_empty_spec
      ⟨List.replicate 30 0 ++ [0, 1, 2, 3, 4, 5, 6, 7, 8, 9], 30, 10⟩
      12 3).2.2 (by decide)⟩

theorem byteAt_drop_take (blob : List Nat) (o k i : Nat) (hik : i < k)
    (_hlen : o + k ≤ blob.length) :
    byteAt ((blob.drop o).take k) i = byteAt blob (o + i) := by
  unfold byteAt
  rw [List.getD_eq_getElem?_getD, List.getD_eq_getElem?_getD,
    List.getElem?_take, if_pos hik, List.getElem?_drop]

/-- C2: for a container holding the full 30 fixed header bytes at offset
`o`, `getEntryMetadata` returns metadata whose fields are the little-endian
values at the documented positions — `compressionMethod` from bytes
`[o+8, o+10)`, `compressedSize` from `[o+18, o+22)`, `uncompressedSize` from
`[o+22, o+26)`, and `headerSize = 30 + fileNameLength + extraFieldLength`
with the two lengths from `[o+26, o+28)` and `[o+28, o+30)` — and the result
depends only on the 30 bytes `[o, o+30)`: two containers whose slices there
agree parse identically (no other container access). -/
theorem getEntryMetadata_decodes_header (blob : List Nat) (o : Nat)
    (hlen : o + 30 ≤ blob.length) :
    getEntryMetadata blob o = some
      { offset := o,
        compressionMethod := byteAt blob (o + 8) + 256 * byteAt blob (o + 9),
        compressedSize := byteAt blob (o + 18) + 256 * byteAt blob (o + 19)
          + 65536 * byteAt blob (o + 20) + 16777216 * byteAt blob (o + 21),
        uncompressedSize := byteAt blob (o + 22) + 256 * byteAt blob (o + 23)
          + 65536 * byteAt blob (o + 24) + 16777216 * byteAt blob (o + 25),
        headerSize := 30 + (byteAt blob (o + 26) + 256 * byteAt blob (o + 27))
          + (byteAt blob (o + 28) + 256 * byteAt blob (o + 29)) }
    ∧ ∀ blob2 : List Nat,
        blobSlice blob (o : Int) ((o : Int) + 30)
          = blobSlice blob2 (o : Int) ((o : Int) + 30) →
        getEntryMetadata blob o = getEntryMetadata blob2 o := by
  constructor
  · have hsl : blobSlice blob (o : Int) ((o : Int) + 30)
        = (blob.drop o).take 30 := by
      have h30 := blobSlice_eq_drop_take blob o 30 hlen
      push_cast at h30
      exact h30
    have hlen2 : ((blob.drop o).take 30).length = 30 := by
      simp only [List.length_take, List.length_drop]
      omega
    unfold getEntryMetadata decodeLocalHeader getUint16LE getUint32LE
    rw [hsl, hlen2]
    norm_num
    rw [byteAt_drop_take blob o 30 8 (by omega) hlen,
      byteAt_drop_take blob o 30 9 (by omega) hlen,
      byteAt_drop_take blob o 30 18 (by omega) hlen,
      byteAt_drop_take blob o 30 19 (by omega) hlen,
      byteAt_drop_take blob o 30 20 (by omega) hlen,
      byteAt_drop_take blob o 30 21 (by omega) hlen,
      byteAt_drop_take blob o 30 22 (by omega) hlen,
      byteAt_drop_take blob o 30 23 (by omega) hlen,
      byteAt_drop_take blob o 30 24 (by omega) hlen,
      byteAt_drop_take blob o 30 25 (by omega) hlen,
      byteAt_drop_take blob o 30 26 (by omega) hlen,
      byteAt_drop_take blob o 30 27 (by omega) hlen,
      byteAt_drop_take blob o 30 28 (by omega) hlen,
      byteAt_drop_take blob o 30 29 (by omega) hlen]
    exact ⟨rfl, rfl, rfl, rfl⟩
  · intro blob2 h
    unfold getEntryMetadata
    rw [h]

/-- C2 witness: a 30-byte header at offset 0 with compression method 8,
compressed size 13, uncompressed size 21, file name length 5 and extra field
length 7, hence `headerSize = 30 + 5 + 7 = 42`. -/
theorem getEntryMetadata_decodes_header_witness :
    getEntryMetadata
        [80, 75, 3, 4, 20, 0, 0, 0, 8, 0, 0, 0, 0, 0, 1, 2, 3, 4,
         13, 0, 0, 0, 21, 0, 0, 0, 5, 0, 7, 0] 0
      = some ⟨0, 8, 13, 21, 42⟩ :=
  (getEntryMetadata_decodes_header
    [80, 75, 3, 4, 20, 0, 0, 0, 8, 0, 0, 0, 0, 0, 1, 2, 3, 4,
     13, 0, 0, 0, 21, 0, 0, 0, 5, 0, 7, 0] 0 (by decide)).1

/-- C8: `zipGetData` returns a successful decode unchanged; a caught
`ProgressEvent` of type `"error"` with a non-null target re-throws the
target's `error` field; any other caught value is re-thrown unchanged. -/
theorem zipGetData_unwrap_spec {α : Type} (v : α) (inner e : JSError) :
    zipGetData (Except.ok v) = Except.ok v
    ∧ zipGetData (α := α)
        (Except.error (JSError.progressEvent "error" (some inner)))
        = Except.error inner
    ∧ ((∀ x, e ≠ JSError.progressEvent "error" (some x)) →
        zipGetData (α := α) (Except.error e) = Except.error e) := by
  refine ⟨rfl, rfl, fun h => ?_⟩
  show Except.error (unwrapZipError e) = Except.error e
  congr 1
  unfold unwrapZipError
  split
  · rename_i x
    exact absurd rfl (h x)
  · rfl

/-- C8 witness: the three behaviours at concrete values. -/
theorem zipGetData_unwrap_spec_witness :
    zipGetData (Except.ok (42 : Nat)) = Except.ok 42
    ∧ zipGetData (α := Nat)
        (Except.error (JSError.progressEvent "error" (some (JSError.plain 3))))
        = Except.error (JSError.plain 3)
    ∧ zipGetData (α := Nat) (Except.error (JSError.plain 7))
        = Except.error (JSError.plain 7) :=
  ⟨(zipGetData_unwrap_spec 42 (JSError.plain 3) (JSError.plain 7)).1,
   (zipGetData_unwrap_spec 42 (JSError.plain 3) (JSError.plain 7)).2.1,
   (zipGetData_unwrap_spec 42 (JSError.plain 3) (JSError.plain 7)).2.2
     (fun _x hx => JSError.noConfusion hx)⟩

/-- C5: when `BlobEntryReader.init` succeeds it has chosen exactly one inner
reader by branching on the parsed `compressionMethod`: the zero-copy
`BlobEntryReaderImpl` over the container when the method is `0`, otherwise a
`BlobReader` over the blob decoded once through `zipGetData`; afterwards the
accessor's `size` equals the chosen reader's size and every `readUint8Array`
call is forwarded verbatim to it. -/
theorem init_picks_reader_and_forwards (r s : BlobEntryReader)
    (md : EntryMetadata)
    (hmd : getEntryMetadata r.blob r.entry.offset = some md)
    (hinit : r.init = Except.ok s) :
    ∃ rd : InnerReader, s.reader = some rd ∧ s.size = rd.size
      ∧ (∀ index length : Int,
          s.readUint8Array index length
            = Except.ok (rd.readUint8Array index length))
      ∧ (if md.compressionMethod = 0
          then rd = InnerReader.stored (BlobEntryReaderImpl.ofMetadata r.blob md)
          else ∃ buf, zipGetData r.entry.getDataResult = Except.ok buf
            ∧ rd = InnerReader.decoded buf) := by
  by_cases hcm : md.compressionMethod = 0
  · simp only [BlobEntryReader.init, hmd, hcm, ne_eq, not_true_eq_false,
      if_false, ite_false, Except.ok.injEq] at hinit
    subst hinit
    refine ⟨InnerReader.stored (BlobEntryReaderImpl.ofMetadata r.blob md),
      rfl, rfl, fun index length => rfl, ?_⟩
    rw [if_pos hcm]
  · cases hz : zipGetData r.entry.getDataResult with
    | error e =>
      simp only [BlobEntryReader.init, hmd, hcm, ne_eq, not_false_eq_true,
        if_true, ite_true, hz] at hinit
      cases hinit
    | ok buf =>
      simp only [BlobEntryReader.init, hmd, hcm, ne_eq, not_false_eq_true,
        if_true, ite_true, hz, Except.ok.injEq] at hinit
      subst hinit
      refine ⟨InnerReader.decoded buf, rfl, rfl, fun index length => rfl, ?_⟩
      rw [if_neg hcm]
      exact ⟨buf, rfl, rfl⟩

/-- C5 witness: a container with a stored entry (method 0, size 4, data
`[9, 8, 7, 6]` at byte 30); `init` succeeds and installs the zero-copy
reader of size 4, and reads are forwarded to it. -/
theorem init_picks_reader_and_forwards_witness :
    ∃ rd : InnerReader,
      ({ blob := List.replicate 18 0 ++ [4, 0, 0, 0, 4, 0, 0, 0, 0, 0, 0, 0, 9, 8, 7, 6],
         entry := ⟨0, Except.ok []⟩,
         reader := some (InnerReader.stored
           ⟨List.replicate 18 0 ++ [4, 0, 0, 0, 4, 0, 0, 0, 0, 0, 0, 0, 9, 8, 7, 6], 30, 4⟩),
         size := 4 } : BlobEntryReader).reader = some rd
      ∧ ({ blob := List.replicate 18 0 ++ [4, 0, 0, 0, 4, 0, 0, 0, 0, 0, 0, 0, 9, 8, 7, 6],
           entry := ⟨0, Except.ok []⟩,
           reader := some (InnerReader.stored
             ⟨List.replicate 18 0 ++ [4, 0, 0, 0, 4, 0, 0, 0, 0, 0, 0, 0, 9, 8, 7, 6], 30, 4⟩),
           size := 4 } : BlobEntryReader).size = rd.size
      ∧ (∀ index length : Int,
          ({ blob := List.replicate 18 0 ++ [4, 0, 0, 0, 4, 0, 0, 0, 0, 0, 0, 0, 9, 8, 7, 6],
             entry := ⟨0, Except.ok []⟩,
             reader := some (InnerReader.stored
               ⟨List.replicate 18 0 ++ [4, 0, 0, 0, 4, 0, 0, 0, 0, 0, 0, 0, 9, 8, 7, 6], 30, 4⟩),
             size := 4 } : BlobEntryReader).readUint8Array index length
            = Except.ok (rd.readUint8Array index length))
      ∧ (if (0 : Nat) = 0
          then rd = InnerReader.stored (BlobEntryReaderImpl.ofMetadata
            (List.replicate 18 0 ++ [4, 0, 0, 0, 4, 0, 0, 0, 0, 0, 0, 0, 9, 8, 7, 6]) ⟨0, 0, 4, 4, 30⟩)
          else ∃ buf, zipGetData (Except.ok ([] : List Nat)) = Except.ok buf
            ∧ rd = InnerReader.decoded buf) :=
  init_picks_reader_and_forwards
    (BlobEntryReader.construct (List.replicate 18 0 ++ [4, 0, 0, 0, 4, 0, 0, 0, 0, 0, 0, 0, 9, 8, 7, 6])
      ⟨0, Except.ok []⟩)
    { blob := List.replicate 18 0 ++ [4, 0, 0, 0, 4, 0, 0, 0, 0, 0, 0, 0, 9, 8, 7, 6],
      entry := ⟨0, Except.ok []⟩,
      reader := some (InnerReader.stored
        ⟨List.replicate 18 0 ++ [4, 0, 0, 0, 4, 0, 0, 0, 0, 0, 0, 0, 9, 8, 7, 6], 30, 4⟩),
      size := 4 }
    ⟨0, 0, 4, 4, 30⟩ (by decide) rfl

/-- C6: in the `runWithTimeout` race, if the wrapped promise settles before
the timer fires, its outcome (value or failure) is the single report, the
timer is cancelled, and no `TimeoutError` is ever reported; if the timer
fires first, the single report is a rejection with a `TimeoutError` whose
`timeout` field equals the configured duration, and the promise's own
outcome is never delivered; under both interleavings exactly one outcome is
reported. -/
theorem runWithTimeout_spec {α ε : Type} (outcome : Settled α ε) (T : Nat) :
    (runWithTimeout outcome T RaceOrder.settleFirst).reports
      = [settledReport outcome]
    ∧ (runWithTimeout outcome T RaceOrder.settleFirst).timerCancelled = true
    ∧ ((runWithTimeout outcome T RaceOrder.settleFirst).reports.all
        (fun rep => ! isTimeoutReport rep)) = true
    ∧ (runWithTimeout outcome T RaceOrder.timerFirst).reports
      = [Report.timeoutFailure ⟨T⟩]
    ∧ (∀ order : RaceOrder,
        (runWithTimeout outcome T order).reports.length = 1) := by
  refine ⟨?_, ?_, ?_, ?_, ?_⟩
  · simp [runWithTimeout, promiseSettle, timerFire, raceStart]
  · simp [runWithTimeout, promiseSettle, timerFire, raceStart]
  · cases outcome <;>
      simp [runWithTimeout, promiseSettle, timerFire, raceStart,
        settledReport, isTimeoutReport]
  · simp [runWithTimeout, promiseSettle, timerFire, raceStart]
  · intro order
    cases order <;>
      simp [runWithTimeout, promiseSettle, timerFire, raceStart]

theorem progressLoop_eq_map_take (st tgt dur : Int)
    (samples : List (Int × Bool)) :
    ∃ k, progressLoop st tgt dur samples
      = ((samples.map Prod.fst).take k).map
          (fun now => ((now - st : Int) : ℚ) / ((dur : Int) : ℚ)) := by
  induction samples with
  | nil => exact ⟨0, rfl⟩
  | cons p rest ih =>
    obtain ⟨now, stop⟩ := p
    obtain ⟨k, hk⟩ := ih
    by_cases h : stop = false ∧ now < tgt
    · exact ⟨k + 1, by simp [progressLoop, h, hk]⟩
    · exact ⟨1, by simp [progressLoop, h]⟩

/-- C7: the trace of fractions reported by `runWithTimedProgress` starts
with `0.0` and ends with exactly `1.0` (issued after the loop reports, i.e.
after both the progress loop and the awaited work have finished); every loop
report equals `elapsed / duration` at its tick — the loop trace is a mapped
prefix of the sampled clock times — and, the clock being non-decreasing and
the duration positive, the loop reports are non-decreasing. -/
theorem runWithTimedProgress_spec (startTime duration : Int)
    (samples : List (Int × Bool)) (hdur : 0 < duration)
    (hmono : (samples.map Prod.fst).Chain' (· ≤ ·)) :
    (runWithTimedProgress startTime duration samples).head? = some 0
    ∧ (runWithTimedProgress startTime duration samples).getLast? = some 1
    ∧ (∃ k, progressLoop startTime (startTime + duration) duration samples
        = ((samples.map Prod.fst).take k).map
            (fun now => ((now - startTime : Int) : ℚ) / ((duration : Int) : ℚ)))
    ∧ (progressLoop startTime (startTime + duration) duration
        samples).Chain' (· ≤ ·) := by
  refine ⟨rfl, ?_, progressLoop_eq_map_take _ _ _ _, ?_⟩
  · show (0 :: (progressLoop startTime (startTime + duration) duration samples
        ++ [1])).getLast? = some 1
    rw [← List.cons_append, List.getLast?_append_of_ne_nil _ (by simp)]
    rfl
  · obtain ⟨k, hk⟩ := progressLoop_eq_map_take startTime
      (startTime + duration) duration samples
    rw [hk]
    apply List.chain'_map_of_chain'
    · intro a b hab
      have hc' : (0 : ℚ) < ((duration : Int) : ℚ) := by exact_mod_cast hdur
      have h' : ((a - startTime : Int) : ℚ) ≤ ((b - startTime : Int) : ℚ) := by
        exact_mod_cast Int.sub_le_sub_right hab startTime
      exact (div_le_div_iff_of_pos_right hc').mpr h'
    · exact hmono.take k

/-- C7 witness: start time `0`, estimated duration `2`, three loop ticks at
times `0`, `1`, `2` with the stop flag raised at the last tick. -/
theorem runWithTimedProgress_spec_witness :
    (runWithTimedProgress 0 2 [(0, false), (1, false), (2, true)]).head?
      = some 0
    ∧ (runWithTimedProgress 0 2 [(0, false), (1, false), (2, true)]).getLast?
      = some 1
    ∧ (∃ k, progressLoop 0 (0 + 2) 2 [(0, false), (1, false), (2, true)]
        = (([(0, false), (1, false), (2, true)].map Prod.fst).take k).map
            (fun now => ((now - 0 : Int) : ℚ) / ((2 : Int) : ℚ)))
    ∧ (progressLoop 0 (0 + 2) 2 [(0, false), (1, false), (2, true)]).Chain'
        (· ≤ ·) :=
  runWithTimedProgress_spec 0 2 [(0, false), (1, false), (2, true)]
    (by decide) (by simp [List.chain'_cons])

end Fastboot
